import Mathlib

/-!
Verification of the rate-limited event dispatch utilities (throttle/debounce)
and the rolling "Konami code" sequence matcher of `src/script.js`.

The embedding is shallow: each JavaScript function is translated into a Lean
function over explicit state, and the browser's single-threaded timer queue is
modelled with a simulated millisecond clock (`Nat`).  A `setTimeout` callback
whose deadline is at or before the timestamp of the next dispatched event runs
before that event's handler.  A callback `f` is modelled as
`Option γ → α → β`: the first argument is the receiver (`this`) the callback
is invoked with, `none` standing for the undefined/global receiver of a plain
JavaScript call, `α` the argument list, `β` the result.
-/

namespace EventsDemo

universe u v w

/-! ## Rolling sequence matcher (Konami code detector)

Source (`src/script.js`, lines 624-640):
```
let konamiCode = [];
document.addEventListener('keydown', function(e) {
    konamiCode.push(e.key);
    if (konamiCode.length > 10) {
        konamiCode.shift();
    }
    if (konamiCode.join('') === 'ArrowUp...ArrowRightba') {
        ... match effect ...
    }
});
```
-/

/-- The flat string the joined buffer is compared against (source line 631). -/
def konamiTarget : String :=
  "ArrowUpArrowUpArrowDownArrowDownArrowLeftArrowRightArrowLeftArrowRightba"

/-- One `keydown` event's buffer update: `konamiCode.push(e.key)` then
`if (konamiCode.length > 10) konamiCode.shift()` (`shift` drops the oldest,
i.e. first, element). -/
def konamiStep (buf : List String) (key : String) : List String :=
  let b := buf ++ [key]
  if b.length > 10 then b.tail else b

/-- The match test run after each buffer update:
`konamiCode.join('') === konamiTarget`. -/
def konamiMatch (buf : List String) : Bool :=
  String.join buf == konamiTarget

/-- Buffer contents after feeding a stream of key identifiers, starting from
buffer `buf`. -/
def konamiRunFrom : List String → List String → List String
  | buf, [] => buf
  | buf, k :: ks => konamiRunFrom (konamiStep buf k) ks

/-- Buffer contents after feeding a stream of key identifiers from the initial
empty buffer (`let konamiCode = []`). -/
def konamiRun (keys : List String) : List String :=
  konamiRunFrom [] keys

/-- Number of match signals fired while feeding a stream from buffer `buf`:
the comparison runs once after every event's buffer update. -/
def konamiMatchesFrom : List String → List String → Nat
  | _, [] => 0
  | buf, k :: ks =>
    let b := konamiStep buf k
    (if konamiMatch b then 1 else 0) + konamiMatchesFrom b ks

/-- Number of match signals over a stream fed from the initial empty buffer. -/
def konamiMatches (keys : List String) : Nat :=
  konamiMatchesFrom [] keys

/-- The 10-element target key sequence, element by element. -/
def targetSeq : List String :=
  ["ArrowUp", "ArrowUp", "ArrowDown", "ArrowDown", "ArrowLeft",
   "ArrowRight", "ArrowLeft", "ArrowRight", "b", "a"]

/-- The six distinct key identifiers occurring in the target sequence. -/
def konamiAlphabet : List String :=
  ["ArrowUp", "ArrowDown", "ArrowLeft", "ArrowRight", "b", "a"]

/-- A 10-event key stream that is not element-wise equal to `targetSeq` but
whose concatenation equals `konamiTarget`. -/
def aliasStream : List String :=
  ["Arrow", "Up", "ArrowUp", "ArrowDown", "ArrowDown", "ArrowLeft",
   "ArrowRight", "ArrowLeft", "ArrowRight", "ba"]

/-! ## Throttle

Source (`src/script.js`, lines 569-580):
```
function throttle(func, limit) {
    let inThrottle;
    return function() {
        const args = arguments;
        const context = this;
        if (!inThrottle) {
            func.apply(context, args);
            inThrottle = true;
            setTimeout(() => inThrottle = false, limit);
        }
    }
}
```
The closure state is the flag `inThrottle` together with its pending unlock
timer; since the unlock timer is never cancelled and only resets the flag, the
pair is represented by `lockedUntil : Option Nat` — `some d` meaning the flag
is set and scheduled to clear at time `d`.  A call at time `t ≥ d` observes the
cleared flag.
-/

/-- One call through a wrapper: timestamp (ms), receiver (`this`) the wrapper
was invoked with, and the argument list. -/
structure TCall (γ : Type u) (α : Type v) where
  time : Nat
  ctx : γ
  args : α
  deriving DecidableEq, Repr

/-- A record of one invocation of the underlying callback: when it ran, the
receiver it was invoked with (`none` = the undefined/global receiver of a
plain call), the arguments, and the callback's computed result. -/
structure Invocation (γ : Type u) (α : Type v) (β : Type w) where
  time : Nat
  thisCtx : Option γ
  args : α
  result : β
  deriving DecidableEq, Repr

/-- Result of a single call to a throttled wrapper: the closure state after
the call, the invocation of `func` performed during the call (if any), and the
value the wrapper returns to its caller (the function body has no `return`
statement, so this is `none`, the undefined value). -/
structure ThrottleOut (γ : Type u) (α : Type v) (β : Type w) where
  lockedUntil : Option Nat
  inv : Option (Invocation γ α β)
  ret : Option β
  deriving DecidableEq, Repr

/-- One call to the wrapper returned by `throttle(func, limit)`, at state
`lockedUntil`.  Any unlock timer due at or before `c.time` has already reset
`inThrottle`; then `if (!inThrottle) { func.apply(context, args); inThrottle =
true; setTimeout(() => inThrottle = false, limit); }`. -/
def throttleStep {γ : Type u} {α : Type v} {β : Type w} (limit : Nat)
    (f : Option γ → α → β) (lockedUntil : Option Nat) (c : TCall γ α) :
    ThrottleOut γ α β :=
  let cleared : Option Nat :=
    match lockedUntil with
    | some d => if d ≤ c.time then none else some d
    | none => none
  match cleared with
  | none =>
    { lockedUntil := some (c.time + limit)
      inv := some ⟨c.time, some c.ctx, c.args, f (some c.ctx) c.args⟩
      ret := none }
  | some d => { lockedUntil := some d, inv := none, ret := none }

/-- Dispatch a time-ordered sequence of calls to a throttled wrapper from
state `s`, collecting the invocations of `func` in order. -/
def throttleRunFrom {γ : Type u} {α : Type v} {β : Type w} (limit : Nat)
    (f : Option γ → α → β) :
    Option Nat → List (TCall γ α) → Option Nat × List (Invocation γ α β)
  | s, [] => (s, [])
  | s, c :: cs =>
    let o := throttleStep limit f s c
    let r := throttleRunFrom limit f o.lockedUntil cs
    (r.1, o.inv.toList ++ r.2)

/-- Dispatch a sequence of calls to a freshly constructed throttled wrapper
(`let inThrottle;` — initially undefined, i.e. unlocked). -/
def throttleRun {γ : Type u} {α : Type v} {β : Type w} (limit : Nat)
    (f : Option γ → α → β) (calls : List (TCall γ α)) :
    Option Nat × List (Invocation γ α β) :=
  throttleRunFrom limit f none calls

/-- The invocation record a call produces when it finds the throttled wrapper
unlocked: synchronous, with the caller's receiver and arguments. -/
def mkInvocation {γ : Type u} {α : Type v} {β : Type w}
    (f : Option γ → α → β) (c : TCall γ α) : Invocation γ α β :=
  ⟨c.time, some c.ctx, c.args, f (some c.ctx) c.args⟩

/-! ## Debounce

Source (`src/script.js`, lines 582-592):
```
function debounce(func, wait) {
    let timeout;
    return function executedFunction(...args) {
        const later = () => {
            clearTimeout(timeout);
            func(...args);
        };
        clearTimeout(timeout);
        timeout = setTimeout(later, wait);
    };
}
```
The host timer facility is modelled explicitly so that cancellation is
observable: `setTimeout` appends a `Timer` with a fresh handle to a queue and
`clearTimeout(h)` removes the entry with handle `h`, if still queued.  The
closure variable `timeout` holds the last handle returned by `setTimeout`.
`func(...args)` is a plain call, so the callback runs with the
undefined/global receiver (`none`), not the receiver the wrapper was called
with. -/

/-- A scheduled `setTimeout` entry of a debounced wrapper: its cancellation
handle, its due time, and the `args` captured by the `later` closure. -/
structure Timer (α : Type v) where
  handle : Nat
  fireAt : Nat
  args : α
  deriving DecidableEq, Repr

/-- State of a debounced wrapper: the closure variable `timeout` (last
`setTimeout` handle, `none` while still undefined), the pending-timer queue of
the host, and the next fresh handle. -/
structure DebounceState (α : Type v) where
  timeoutVar : Option Nat
  queue : List (Timer α)
  nextHandle : Nat
  deriving DecidableEq, Repr

/-- A freshly constructed debounced wrapper: `let timeout;`, no pending
timers. -/
def initDebounce {α : Type v} : DebounceState α := ⟨none, [], 0⟩

/-- `clearTimeout(timeout)`: remove the timer with the given handle from the
queue if present; with an undefined handle (or an already-fired one) this is a
no-op. -/
def clearTimeoutQ {α : Type v} (h : Option Nat) (q : List (Timer α)) :
    List (Timer α) :=
  match h with
  | none => q
  | some h0 => q.filter (fun t => t.handle != h0)

/-- Fire every queued timer due at or before `now`, in order.  A firing timer
leaves the host queue, then its `later` body runs: `clearTimeout(timeout)`
(a no-op when `timeout` is the timer's own, already dequeued, handle) followed
by `func(...args)` with the undefined/global receiver.  `fuel` bounds the
recursion by the queue length. -/
def fireDue {γ : Type u} {α : Type v} {β : Type w} (f : Option γ → α → β) :
    Nat → DebounceState α → Nat → DebounceState α × List (Invocation γ α β)
  | 0, s, _ => (s, [])
  | fuel + 1, s, now =>
    match s.queue.find? (fun t => decide (t.fireAt ≤ now)) with
    | none => (s, [])
    | some tm =>
      let q1 := s.queue.filter (fun t => t.handle != tm.handle)
      let q2 := clearTimeoutQ s.timeoutVar q1
      let r := fireDue f fuel ⟨s.timeoutVar, q2, s.nextHandle⟩ now
      (r.1, ⟨tm.fireAt, none, tm.args, f none tm.args⟩ :: r.2)

/-- Result of a single call to a debounced wrapper: state after the call, the
invocations of `func` from timers that came due before the call ran, and the
value the wrapper returns to its caller (`executedFunction` has no `return`
statement, so `none`). -/
structure DebounceOut (γ : Type u) (α : Type v) (β : Type w) where
  state : DebounceState α
  invs : List (Invocation γ α β)
  ret : Option β

/-- One call at time `c.time` to the wrapper returned by
`debounce(func, wait)`: timers due by `c.time` fire first, then the handler
body runs `clearTimeout(timeout); timeout = setTimeout(later, wait)`,
scheduling `later` (which will call `func` with this call's `args`) for
`c.time + wait`. -/
def debounceStep {γ : Type u} {α : Type v} {β : Type w} (wait : Nat)
    (f : Option γ → α → β) (s : DebounceState α) (c : TCall γ α) :
    DebounceOut γ α β :=
  let fd := fireDue f s.queue.length s c.time
  let s1 := fd.1
  let q := clearTimeoutQ s1.timeoutVar s1.queue
  let h := s1.nextHandle
  { state := ⟨some h, q ++ [⟨h, c.time + wait, c.args⟩], h + 1⟩
    invs := fd.2
    ret := none }

/-- Dispatch a time-ordered sequence of calls to a debounced wrapper from
state `s`, collecting the invocations of `func` in order. -/
def debounceRunFrom {γ : Type u} {α : Type v} {β : Type w} (wait : Nat)
    (f : Option γ → α → β) :
    DebounceState α → List (TCall γ α) →
      DebounceState α × List (Invocation γ α β)
  | s, [] => (s, [])
  | s, c :: cs =>
    let o := debounceStep wait f s c
    let r := debounceRunFrom wait f o.state cs
    (r.1, o.invs ++ r.2)

/-- Dispatch a sequence of calls to a freshly constructed debounced wrapper. -/
def debounceRun {γ : Type u} {α : Type v} {β : Type w} (wait : Nat)
    (f : Option γ → α → β) (calls : List (TCall γ α)) :
    DebounceState α × List (Invocation γ α β) :=
  debounceRunFrom wait f initDebounce calls

/-- Let simulated time run out after the last call: every still-pending timer
eventually fires (queue order; reachable states hold at most one timer). -/
def flushAll {γ : Type u} {α : Type v} {β : Type w} (f : Option γ → α → β) :
    Nat → DebounceState α → DebounceState α × List (Invocation γ α β)
  | 0, s => (s, [])
  | fuel + 1, s =>
    match s.queue with
    | [] => (s, [])
    | tm :: _ =>
      let q1 := s.queue.filter (fun t => t.handle != tm.handle)
      let q2 := clearTimeoutQ s.timeoutVar q1
      let r := flushAll f fuel ⟨s.timeoutVar, q2, s.nextHandle⟩
      (r.1, ⟨tm.fireAt, none, tm.args, f none tm.args⟩ :: r.2)

/-- All invocations of `func` produced by a call sequence to a debounced
wrapper, including timers that fire after the last call. -/
def debounceComplete {γ : Type u} {α : Type v} {β : Type w} (wait : Nat)
    (f : Option γ → α → β) (calls : List (TCall γ α)) :
    List (Invocation γ α β) :=
  let r := debounceRun wait f calls
  r.2 ++ (flushAll f r.1.queue.length r.1).2

/-- The per-wrapper state invariant of a debounced wrapper: every queued
timer carries the handle currently stored in the `timeout` closure variable,
and at most one timer is pending. -/
def DebInv {α : Type v} (s : DebounceState α) : Prop :=
  (∀ tm ∈ s.queue, s.timeoutVar = some tm.handle) ∧ s.queue.length ≤ 1

/-- Calls of a burst: consecutive calls are in time order and strictly closer
than the quiet period. -/
def BurstSpaced {γ : Type u} {α : Type v} (wait : Nat)
    (calls : List (TCall γ α)) : Prop :=
  List.Chain' (fun a b => a.time ≤ b.time ∧ b.time < a.time + wait) calls

/-- The mouse-move simulation of the spec's end-to-end property: one call
every 10 ms for 1 second. -/
def simCalls : List (TCall Unit Unit) :=
  (List.range 100).map (fun i => ⟨10 * i, (), ()⟩)

/-! ## Lemmas about the sequence matcher -/

theorem konamiStep_length {buf : List String} (k : String)
    (h : buf.length ≤ 10) : (konamiStep buf k).length ≤ 10 := by
  have hk : konamiStep buf k =
      if (buf ++ [k]).length > 10 then (buf ++ [k]).tail else buf ++ [k] := rfl
  rw [hk]
  split
  · simpa [List.length_tail] using h
  · simp only [List.length_append, List.length_singleton] at *
    omega

theorem konamiRunFrom_length :
    ∀ (keys buf : List String), buf.length ≤ 10 →
      (konamiRunFrom buf keys).length ≤ 10
  | [], _, h => h
  | k :: ks, buf, h =>
    konamiRunFrom_length ks (konamiStep buf k) (konamiStep_length k h)

theorem konamiRunFrom_concat :
    ∀ (keys buf : List String) (k : String),
      konamiRunFrom buf (keys ++ [k]) = konamiStep (konamiRunFrom buf keys) k
  | [], _, _ => rfl
  | k' :: ks, buf, k => konamiRunFrom_concat ks (konamiStep buf k') k

/-! ## Claim theorems for the sequence matcher -/

/-- C3: after processing each key-press event the buffer has length at most
10 (the length of the target pattern), for every stream fed from the empty
initial buffer; and each event is the deterministic transition `konamiStep`
(append, then FIFO trim to 10, the comparison not touching the buffer). -/
theorem konami_buffer_bounded :
    (∀ keys : List String, (konamiRun keys).length ≤ 10) ∧
    (∀ (keys : List String) (k : String),
      konamiRun (keys ++ [k]) = konamiStep (konamiRun keys) k) :=
  ⟨fun keys => konamiRunFrom_length keys [] (by decide),
   fun keys k => konamiRunFrom_concat keys [] k⟩

/-- C4 counterexample: replacing the 9th element `"b"` of the target sequence
by the different key identifier `"ba"` still produces a match signal (the
handler compares `join('')` against a flat string, and the concatenation of
the altered stream reaches the target string one event early), so the altered
stream does not produce zero match signals. -/
theorem konami_one_off_counterexample :
    targetSeq.get? 8 = some "b" ∧ "ba" ≠ "b" ∧
    konamiMatches (targetSeq.set 8 "ba") = 1 := by
  decide

/-- C4 (amended): feeding exactly the 10-element target sequence from the
empty buffer produces exactly one match signal, and feeding that sequence
with any single element replaced by a different key identifier drawn from the
target's own key alphabet produces zero match signals. -/
theorem konami_exact_match_amended :
    konamiMatches targetSeq = 1 ∧
    ∀ i ∈ List.range 10, ∀ k ∈ konamiAlphabet,
      targetSeq.get? i ≠ some k → konamiMatches (targetSeq.set i k) = 0 := by
  decide

/-- Witness for the amended C4 at a concrete input: replacing the first
element by `"ArrowDown"` yields zero match signals. -/
theorem konami_exact_match_amended_witness :
    konamiMatches (targetSeq.set 0 "ArrowDown") = 0 :=
  konami_exact_match_amended.2 0 (by decide) "ArrowDown" (by decide) (by decide)

/-- C9: a 10-event stream that is not element-wise equal to the target key
sequence still triggers a match signal, because the handler compares the
`join('')` of the buffer against a flat string. -/
theorem konami_join_alias :
    aliasStream ≠ targetSeq ∧ konamiMatches aliasStream = 1 := by
  decide

/-- C8: the match-signalling branch leaves the buffer unchanged — after an
event on which the match fires the buffer is exactly the trimmed window
produced by `konamiStep`; consequently the buffer right after feeding the
exact target is the full 10-element window, and feeding the target twice in a
row from the empty buffer produces two (overlapping-window) matches, with no
reset in between. -/
theorem konami_no_reset_after_match :
    (∀ (buf : List String) (k : String), konamiMatch (konamiStep buf k) = true →
      konamiRunFrom buf [k] = konamiStep buf k) ∧
    konamiRun targetSeq = targetSeq ∧
    konamiMatches (targetSeq ++ targetSeq) = 2 :=
  ⟨fun _ _ _ => rfl, by decide, by decide⟩

/-- Witness for C8 at a concrete input: the event completing the target
pattern fires the match and the buffer is the trimmed window. -/
theorem konami_no_reset_after_match_witness :
    konamiRunFrom (targetSeq.take 9) ["a"] = konamiStep (targetSeq.take 9) "a" :=
  konami_no_reset_after_match.1 (targetSeq.take 9) "a" (by decide)

/-! ## Lemmas about throttle -/

section ThrottleLemmas

variable {γ : Type u} {α : Type v} {β : Type w}
variable (limit : Nat) (f : Option γ → α → β)

theorem throttleStep_unlocked (c : TCall γ α) :
    throttleStep limit f none c =
      ⟨some (c.time + limit), some (mkInvocation f c), none⟩ := rfl

theorem throttleStep_blocked {d : Nat} (c : TCall γ α) (h : c.time < d) :
    throttleStep limit f (some d) c = ⟨some d, none, none⟩ := by
  unfold throttleStep
  simp [Nat.not_le.mpr h]

theorem throttleStep_expired {d : Nat} (c : TCall γ α) (h : d ≤ c.time) :
    throttleStep limit f (some d) c =
      ⟨some (c.time + limit), some (mkInvocation f c), none⟩ := by
  unfold throttleStep
  simp [h, mkInvocation]

/-- While locked until `d`, every invocation a run produces happens at time
`≥ d`, and successive invocations are at least `limit` apart. -/
theorem throttleRunFrom_locked_spec :
    ∀ (calls : List (TCall γ α)) (d : Nat),
      ((throttleRunFrom limit f (some d) calls).2.Pairwise
        (fun a b => a.time + limit ≤ b.time)) ∧
      (∀ i ∈ (throttleRunFrom limit f (some d) calls).2, d ≤ i.time) := by
  intro calls
  induction calls with
  | nil => intro d; simp [throttleRunFrom]
  | cons c cs ih =>
    intro d
    by_cases h : d ≤ c.time
    · have hstep := throttleStep_expired limit f c h
      have hre := ih (c.time + limit)
      constructor
      · show ((throttleRunFrom limit f (some d) (c :: cs)).2).Pairwise _
        simp only [throttleRunFrom, hstep, Option.toList_some, List.cons_append,
          List.nil_append]
        exact List.pairwise_cons.mpr
          ⟨fun b hb => by
            have := hre.2 b hb
            simp only [mkInvocation]
            omega, hre.1⟩
      · intro i hi
        simp only [throttleRunFrom, hstep, Option.toList_some, List.cons_append,
          List.nil_append, List.mem_cons] at hi
        rcases hi with rfl | hi
        · simpa [mkInvocation] using h
        · have := hre.2 i hi
          omega
    · have hstep := throttleStep_blocked limit f c (Nat.lt_of_not_le h)
      have hre := ih d
      constructor
      · show ((throttleRunFrom limit f (some d) (c :: cs)).2).Pairwise _
        simpa only [throttleRunFrom, hstep, Option.toList_none,
          List.nil_append] using hre.1
      · intro i hi
        simp only [throttleRunFrom, hstep, Option.toList_none,
          List.nil_append] at hi
        exact hre.2 i hi

/-- Invocation times of any throttled run are pairwise at least `limit`
apart. -/
theorem throttleRun_pairwise (calls : List (TCall γ α)) :
    (throttleRun limit f calls).2.Pairwise
      (fun a b => a.time + limit ≤ b.time) := by
  cases calls with
  | nil => simp [throttleRun, throttleRunFrom]
  | cons c cs =>
    have hre := throttleRunFrom_locked_spec limit f cs (c.time + limit)
    show ((throttleRunFrom limit f none (c :: cs)).2).Pairwise _
    simp only [throttleRunFrom, throttleStep_unlocked, Option.toList_some,
      List.cons_append, List.nil_append]
    exact List.pairwise_cons.mpr
      ⟨fun b hb => by
        have := hre.2 b hb
        simp only [mkInvocation]
        omega, hre.1⟩

/-- From a list whose elements are pairwise at least `limit` apart, any
window `[x, x + limit)` keeps at most one element. -/
theorem pairwise_window_le_one {l : List (Invocation γ α β)} {limit : Nat}
    (hp : l.Pairwise (fun a b => a.time + limit ≤ b.time)) (x : Nat) :
    (l.filter (fun i => decide (x ≤ i.time) && decide (i.time < x + limit))).length
      ≤ 1 := by
  set p : Invocation γ α β → Bool :=
    fun i => decide (x ≤ i.time) && decide (i.time < x + limit) with hp_def
  have hsub : List.Sublist (l.filter p) l := List.filter_sublist l
  have hp' : (l.filter p).Pairwise (fun a b => a.time + limit ≤ b.time) :=
    hp.sublist hsub
  match hfl : l.filter p with
  | [] => simp
  | [a] => simp
  | a :: b :: tl =>
    exfalso
    rw [hfl] at hp'
    have hrel : a.time + limit ≤ b.time := (List.pairwise_cons.mp hp').1 b (by simp)
    have ha : p a = true := List.of_mem_filter (by rw [hfl]; exact List.mem_cons_self a _)
    have hb : p b = true := List.of_mem_filter
      (by rw [hfl]; exact List.mem_cons_of_mem a (List.mem_cons_self b _))
    simp only [hp_def, Bool.and_eq_true, decide_eq_true_eq] at ha hb
    omega

/-- While the lock deadline `d` lies strictly after every call time, no call
invokes the callback and the state is unchanged. -/
theorem throttleRunFrom_blocked_none :
    ∀ (rest : List (TCall γ α)) (d : Nat), (∀ c' ∈ rest, c'.time < d) →
      throttleRunFrom limit f (some d) rest = (some d, []) := by
  intro rest
  induction rest with
  | nil => intro d _; rfl
  | cons c cs ih =>
    intro d h
    have hstep := throttleStep_blocked limit f c (h c (List.mem_cons_self c cs))
    have hre := ih d (fun c' hc' => h c' (List.mem_cons_of_mem c hc'))
    simp only [throttleRunFrom, hstep, hre, Option.toList_none, List.nil_append]

end ThrottleLemmas

/-! ## Claim theorems for throttle -/

/-- C1: invocations through a throttled wrapper are rate limited — (i) for
every callback, interval and call sequence, any half-open time window of
length `limit` contains at most one invocation of the callback; (ii) for a
burst headed by call `c` whose remaining calls all occur strictly within
`limit` of `c`, exactly one invocation occurs, with the arguments and
receiver of the first call; (iii) simulating calls every 10 ms for 1 second
with `throttle(fn, 100)` invokes `fn` at most 11 times. -/
theorem throttle_rate_limit :
    (∀ (γ α β : Type) (limit : Nat) (f : Option γ → α → β)
      (calls : List (TCall γ α)) (x : Nat),
      ((throttleRun limit f calls).2.filter
        (fun i => decide (x ≤ i.time) && decide (i.time < x + limit))).length
        ≤ 1) ∧
    (∀ (γ α β : Type) (limit : Nat) (f : Option γ → α → β)
      (c : TCall γ α) (rest : List (TCall γ α)),
      (∀ c' ∈ rest, c'.time < c.time + limit) →
      (throttleRun limit f (c :: rest)).2 = [mkInvocation f c]) ∧
    (throttleRun 100 (fun _ _ => ()) simCalls).2.length ≤ 11 := by
  refine ⟨?_, ?_, by decide⟩
  · intro γ α β limit f calls x
    exact pairwise_window_le_one (throttleRun_pairwise limit f calls) x
  · intro γ α β limit f c rest h
    show (throttleRunFrom limit f none (c :: rest)).2 = _
    simp only [throttleRunFrom, throttleStep_unlocked,
      throttleRunFrom_blocked_none limit f rest (c.time + limit) h,
      Option.toList_some, List.cons_append, List.nil_append]

/-- Witness for C1 at a concrete input: a burst of two calls 10 ms apart with
`limit = 100` invokes the callback once, with the first call's data. -/
theorem throttle_rate_limit_witness :
    (throttleRun 100 (fun _ (a : Nat) => a)
      [⟨0, 1, 2⟩, ⟨10, 3, 4⟩]).2 = [⟨0, some 1, 2, 2⟩] :=
  throttle_rate_limit.2.1 Nat Nat Nat 100 (fun _ a => a) ⟨0, 1, 2⟩ [⟨10, 3, 4⟩]
    (by decide)

/-- C6: the throttled wrapper's cycle — a call in the unlocked state invokes
the callback synchronously with the caller's arguments and receiver and locks
until `c.time + limit`; a call strictly before the lock deadline is a no-op
that drops its arguments; a call at or after the deadline finds the lock
released, invokes the callback again and restarts the cycle. -/
theorem throttle_cycle :
    (∀ (γ α β : Type) (limit : Nat) (f : Option γ → α → β) (c : TCall γ α),
      throttleStep limit f none c =
        ⟨some (c.time + limit), some (mkInvocation f c), none⟩) ∧
    (∀ (γ α β : Type) (limit : Nat) (f : Option γ → α → β) (d : Nat)
      (c : TCall γ α), c.time < d →
      throttleStep limit f (some d) c = ⟨some d, none, none⟩) ∧
    (∀ (γ α β : Type) (limit : Nat) (f : Option γ → α → β) (d : Nat)
      (c : TCall γ α), d ≤ c.time →
      throttleStep limit f (some d) c =
        ⟨some (c.time + limit), some (mkInvocation f c), none⟩) :=
  ⟨fun _ _ _ limit f c => throttleStep_unlocked limit f c,
   fun _ _ _ limit f _ c h => throttleStep_blocked limit f c h,
   fun _ _ _ limit f _ c h => throttleStep_expired limit f c h⟩

/-- Witness for C6 at a concrete input: a call at time 10 while locked until
50 is a no-op. -/
theorem throttle_cycle_witness :
    throttleStep 100 (fun _ (a : Nat) => a) (some 50) ⟨10, 0, 5⟩ =
      ⟨some 50, none, none⟩ :=
  throttle_cycle.2.1 Nat Nat Nat 100 (fun _ a => a) 50 ⟨10, 0, 5⟩ (by decide)

/-! ## Lemmas about debounce -/

section DebounceLemmas

variable {γ : Type u} {α : Type v} {β : Type w}
variable (wait : Nat) (f : Option γ → α → β)

theorem clearTimeoutQ_sublist (h : Option Nat) (q : List (Timer α)) :
    List.Sublist (clearTimeoutQ h q) q := by
  cases h with
  | none => exact List.Sublist.refl q
  | some h0 => exact List.filter_sublist q

theorem clearTimeoutQ_nil (h : Option Nat) :
    clearTimeoutQ h ([] : List (Timer α)) = [] := by
  cases h <;> rfl

/-- Firing due timers never touches the `timeout` closure variable or the
handle counter, and only removes entries from the host queue. -/
theorem fireDue_state :
    ∀ (fuel : Nat) (s : DebounceState α) (now : Nat),
      (fireDue f fuel s now).1.timeoutVar = s.timeoutVar ∧
      (fireDue f fuel s now).1.nextHandle = s.nextHandle ∧
      List.Sublist (fireDue f fuel s now).1.queue s.queue := by
  intro fuel
  induction fuel with
  | zero => exact fun s now => ⟨rfl, rfl, List.Sublist.refl _⟩
  | succ n ih =>
    intro s now
    unfold fireDue
    cases hfind : s.queue.find? (fun t => decide (t.fireAt ≤ now)) with
    | none => simp [hfind]
    | some tm =>
      simp only [hfind]
      have hq2 : List.Sublist
          (clearTimeoutQ s.timeoutVar
            (s.queue.filter (fun t => t.handle != tm.handle))) s.queue :=
        (clearTimeoutQ_sublist _ _).trans (List.filter_sublist s.queue)
      have hre := ih ⟨s.timeoutVar,
        clearTimeoutQ s.timeoutVar
          (s.queue.filter (fun t => t.handle != tm.handle)),
        s.nextHandle⟩ now
      exact ⟨hre.1, hre.2.1, hre.2.2.trans hq2⟩

/-- If no queued timer is due, nothing fires. -/
theorem fireDue_no_due (fuel : Nat) (s : DebounceState α) (now : Nat)
    (h : ∀ tm ∈ s.queue, ¬ tm.fireAt ≤ now) :
    fireDue f fuel s now = (s, []) := by
  cases fuel with
  | zero => rfl
  | succ n =>
    unfold fireDue
    have hfind : s.queue.find? (fun t => decide (t.fireAt ≤ now)) = none :=
      List.find?_eq_none.mpr (fun tm hm => by simpa using h tm hm)
    simp [hfind]

theorem DebInv_init : DebInv (initDebounce : DebounceState α) :=
  ⟨fun _ hm => absurd hm (List.not_mem_nil _), by simp [initDebounce]⟩

/-- On a state satisfying the invariant, a call leaves exactly the timer it
just scheduled: the handler's `clearTimeout(timeout)` removes whatever was
still pending. -/
theorem debounceStep_state {s : DebounceState α} (hs : DebInv s)
    (c : TCall γ α) :
    (debounceStep wait f s c).state =
      ⟨some s.nextHandle, [⟨s.nextHandle, c.time + wait, c.args⟩],
        s.nextHandle + 1⟩ := by
  have hfd := fireDue_state f s.queue.length s c.time
  have hq : clearTimeoutQ (fireDue f s.queue.length s c.time).1.timeoutVar
      (fireDue f s.queue.length s c.time).1.queue = [] := by
    rw [hfd.1]
    cases htv : s.timeoutVar with
    | none =>
      have : s.queue = [] := by
        cases hq : s.queue with
        | nil => rfl
        | cons tm q' =>
          have := hs.1 tm (by rw [hq]; exact List.mem_cons_self tm q')
          rw [htv] at this
          exact absurd this (by simp)
      have hnil : (fireDue f s.queue.length s c.time).1.queue = [] :=
        List.sublist_nil.mp (this ▸ hfd.2.2)
      rw [hnil, clearTimeoutQ_nil]
    | some h0 =>
      show List.filter _ _ = []
      refine List.filter_eq_nil_iff.mpr (fun tm hm => ?_)
      have hmem : tm ∈ s.queue := hfd.2.2.subset hm
      have := hs.1 tm hmem
      rw [htv] at this
      have hh : tm.handle = h0 := (Option.some.inj this).symm
      simp [hh]
  show (⟨_, _ ++ _, _⟩ : DebounceState α) = _
  rw [hq, hfd.2.1]
  rfl

theorem DebInv_step {s : DebounceState α} (hs : DebInv s) (c : TCall γ α) :
    DebInv (debounceStep wait f s c).state := by
  rw [debounceStep_state wait f hs c]
  exact ⟨fun tm hm => by
    rcases List.mem_singleton.mp hm with rfl
    rfl, by simp⟩

theorem debounceRunFrom_inv :
    ∀ (calls : List (TCall γ α)) (s : DebounceState α), DebInv s →
      DebInv (debounceRunFrom wait f s calls).1 := by
  intro calls
  induction calls with
  | nil => exact fun s hs => hs
  | cons c cs ih =>
    intro s hs
    exact ih (debounceStep wait f s c).state (DebInv_step wait f hs c)

theorem debounceRunFrom_append_state (xs ys : List (TCall γ α)) :
    ∀ s : DebounceState α,
      (debounceRunFrom wait f s (xs ++ ys)).1 =
        (debounceRunFrom wait f (debounceRunFrom wait f s xs).1 ys).1 := by
  induction xs with
  | nil => exact fun s => rfl
  | cons c cs ih =>
    intro s
    exact ih (debounceStep wait f s c).state

/-- Through a burst, the single pending timer is repeatedly cancelled and
replaced, no invocation fires, and at the end the pending timer carries the
last call's data. -/
theorem debounceRunFrom_burst :
    ∀ (rest : List (TCall γ α)) (c : TCall γ α) (h hn : Nat),
      BurstSpaced wait (c :: rest) →
      ∃ h' hn',
        debounceRunFrom wait f ⟨some h, [⟨h, c.time + wait, c.args⟩], hn⟩ rest =
          (⟨some h',
            [⟨h', ((c :: rest).getLast (List.cons_ne_nil c rest)).time + wait,
              ((c :: rest).getLast (List.cons_ne_nil c rest)).args⟩],
            hn'⟩, []) := by
  intro rest
  induction rest with
  | nil =>
    intro c h hn _
    exact ⟨h, hn, by simp [debounceRunFrom, List.getLast_singleton]⟩
  | cons c2 rest' ih =>
    intro c h hn hchain
    have hcc : c.time ≤ c2.time ∧ c2.time < c.time + wait :=
      (List.chain'_cons.mp hchain).1
    have hchain' : BurstSpaced wait (c2 :: rest') :=
      (List.chain'_cons.mp hchain).2
    set s : DebounceState α := ⟨some h, [⟨h, c.time + wait, c.args⟩], hn⟩
      with hs_def
    have hstep : debounceStep wait f s c2 =
        ⟨⟨some hn, [⟨hn, c2.time + wait, c2.args⟩], hn + 1⟩, [], none⟩ := by
      have hfd : fireDue f s.queue.length s c2.time = (s, []) := by
        refine fireDue_no_due f _ s c2.time (fun tm hm => ?_)
        rcases List.mem_singleton.mp hm with rfl
        simp only []
        omega
      unfold debounceStep
      rw [hfd]
      simp [hs_def, clearTimeoutQ]
    obtain ⟨h', hn', hre⟩ := ih c2 hn (hn + 1) hchain'
    refine ⟨h', hn', ?_⟩
    show (let o := debounceStep wait f s c2
          let r := debounceRunFrom wait f o.state rest'
          ((r.1, o.invs ++ r.2) :
            DebounceState α × List (Invocation γ α β))) = _
    rw [hstep]
    simp only [hre]
    rw [List.getLast_cons (List.cons_ne_nil c2 rest')]
    simp

/-- Flushing a state holding exactly one pending timer fires it once. -/
theorem flushAll_single (tv : Option Nat) (h t : Nat) (a : α) (hn : Nat) :
    flushAll f 1 ⟨tv, [⟨h, t, a⟩], hn⟩ =
      (⟨tv, [], hn⟩, [⟨t, none, a, f none a⟩]) := by
  unfold flushAll
  simp only [List.filter]
  simp [clearTimeoutQ_nil, flushAll]

/-- Unfolding a run one call at a time. -/
theorem debounceRunFrom_cons (s : DebounceState α) (c : TCall γ α)
    (cs : List (TCall γ α)) :
    debounceRunFrom wait f s (c :: cs) =
      ((debounceRunFrom wait f (debounceStep wait f s c).state cs).1,
       (debounceStep wait f s c).invs ++
         (debounceRunFrom wait f (debounceStep wait f s c).state cs).2) := rfl

/-- Every invocation fired while draining due timers uses the undefined
receiver, satisfies the queue predicate `P`, and carries the callback's
result on its own arguments. -/
theorem fireDue_good (P : Nat → α → Prop) :
    ∀ (fuel : Nat) (s : DebounceState α) (now : Nat),
      (∀ tm ∈ s.queue, P tm.fireAt tm.args) →
      ∀ i ∈ (fireDue f fuel s now).2,
        i.thisCtx = none ∧ P i.time i.args ∧ i.result = f none i.args := by
  intro fuel
  induction fuel with
  | zero => intro s now _ i hi; simp [fireDue] at hi
  | succ n ih =>
    intro s now hq i hi
    unfold fireDue at hi
    cases hfind : s.queue.find? (fun t => decide (t.fireAt ≤ now)) with
    | none => rw [hfind] at hi; simp at hi
    | some tm =>
      rw [hfind] at hi
      simp only [List.mem_cons] at hi
      rcases hi with rfl | hi
      · exact ⟨rfl, hq tm (List.mem_of_find?_eq_some hfind), rfl⟩
      · refine ih _ now (fun tm' hm' => ?_) i hi
        have : tm' ∈ s.queue :=
          ((clearTimeoutQ_sublist _ _).trans (List.filter_sublist _)).subset hm'
        exact hq tm' this

/-- Same property for the timers that fire after the last call. -/
theorem flushAll_good (P : Nat → α → Prop) :
    ∀ (fuel : Nat) (s : DebounceState α),
      (∀ tm ∈ s.queue, P tm.fireAt tm.args) →
      ∀ i ∈ (flushAll f fuel s).2,
        i.thisCtx = none ∧ P i.time i.args ∧ i.result = f none i.args := by
  intro fuel
  induction fuel with
  | zero => intro s _ i hi; simp [flushAll] at hi
  | succ n ih =>
    intro s hq i hi
    unfold flushAll at hi
    cases hque : s.queue with
    | nil => rw [hque] at hi; simp at hi
    | cons tm q' =>
      rw [hque] at hi
      simp only [List.mem_cons] at hi
      rcases hi with rfl | hi
      · exact ⟨rfl, hq tm (by rw [hque]; exact List.mem_cons_self tm q'), rfl⟩
      · refine ih _ (fun tm' hm' => ?_) i hi
        have h1 : tm' ∈ (tm :: q').filter (fun t => t.handle != tm.handle) :=
          (clearTimeoutQ_sublist _ _).subset hm'
        have h2 : tm' ∈ s.queue := by
          rw [hque]
          exact List.mem_of_mem_filter h1
        exact hq tm' h2

/-- Along any run, invocations use the undefined receiver and data from `P`,
and `P` keeps holding for every pending timer. -/
theorem debounceRunFrom_good (P : Nat → α → Prop) :
    ∀ (calls : List (TCall γ α)) (s : DebounceState α),
      (∀ tm ∈ s.queue, P tm.fireAt tm.args) →
      (∀ c ∈ calls, P (c.time + wait) c.args) →
      (∀ i ∈ (debounceRunFrom wait f s calls).2,
        i.thisCtx = none ∧ P i.time i.args ∧ i.result = f none i.args) ∧
      (∀ tm ∈ (debounceRunFrom wait f s calls).1.queue,
        P tm.fireAt tm.args) := by
  intro calls
  induction calls with
  | nil =>
    intro s hq _
    exact ⟨fun i hi => by simp [debounceRunFrom] at hi, hq⟩
  | cons c cs ih =>
    intro s hq hcalls
    have hq1 : ∀ tm ∈ (debounceStep wait f s c).state.queue,
        P tm.fireAt tm.args := by
      intro tm hm
      have hm' : tm ∈ clearTimeoutQ (fireDue f s.queue.length s c.time).1.timeoutVar
            (fireDue f s.queue.length s c.time).1.queue ++
          [⟨(fireDue f s.queue.length s c.time).1.nextHandle,
            c.time + wait, c.args⟩] := hm
      rcases List.mem_append.mp hm' with h1 | h1
      · have : tm ∈ s.queue :=
          ((clearTimeoutQ_sublist _ _).trans
            (fireDue_state f s.queue.length s c.time).2.2).subset h1
        exact hq tm this
      · rcases List.mem_singleton.mp h1 with rfl
        exact hcalls c (List.mem_cons_self c cs)
    have hre := ih (debounceStep wait f s c).state hq1
      (fun c' hc' => hcalls c' (List.mem_cons_of_mem c hc'))
    rw [debounceRunFrom_cons]
    refine ⟨fun i hi => ?_, hre.2⟩
    rcases List.mem_append.mp hi with h1 | h1
    · exact fireDue_good f P s.queue.length s c.time hq i h1
    · exact hre.1 i h1

end DebounceLemmas

section ThrottlePassthrough

variable {γ : Type u} {α : Type v} {β : Type w}
variable (limit : Nat) (f : Option γ → α → β)

/-- Each call to the throttled wrapper either performs no invocation or
invokes the callback with exactly the caller's data. -/
theorem throttleStep_inv_cases (s : Option Nat) (c : TCall γ α) :
    (throttleStep limit f s c).inv = none ∨
    (throttleStep limit f s c).inv = some (mkInvocation f c) := by
  rcases s with _ | d
  · right; rfl
  · by_cases h : d ≤ c.time
    · right; rw [throttleStep_expired limit f c h]
    · left; rw [throttleStep_blocked limit f c (Nat.lt_of_not_le h)]

/-- Every invocation of a throttled run is the verbatim record of one of the
calls. -/
theorem throttleRunFrom_passthrough :
    ∀ (calls : List (TCall γ α)) (s : Option Nat),
      ∀ i ∈ (throttleRunFrom limit f s calls).2,
        ∃ c ∈ calls, i = mkInvocation f c := by
  intro calls
  induction calls with
  | nil => intro s i hi; simp [throttleRunFrom] at hi
  | cons c cs ih =>
    intro s i hi
    have hi' : i ∈ (throttleStep limit f s c).inv.toList ++
        (throttleRunFrom limit f (throttleStep limit f s c).lockedUntil cs).2 := hi
    rcases List.mem_append.mp hi' with h1 | h1
    · rcases throttleStep_inv_cases limit f s c with hc | hc
      · rw [hc] at h1; simp at h1
      · rw [hc] at h1
        simp only [Option.toList_some, List.mem_singleton] at h1
        exact ⟨c, List.mem_cons_self c cs, h1⟩
    · obtain ⟨c', hc', hi2⟩ := ih _ i h1
      exact ⟨c', List.mem_cons_of_mem c hc', hi2⟩

end ThrottlePassthrough

/-! ## Claim theorems for debounce and pass-through -/

/-- C2: for a nonempty burst of calls each spaced less than `wait` apart,
every call cancels the previously pending timer and schedules a fresh one
(after any prefix of calls, a further call leaves exactly the timer it just
scheduled), and the callback is invoked exactly once, `wait` ms after the
last call of the burst, with the arguments of that last call. -/
theorem debounce_burst :
    (∀ (γ α β : Type) (wait : Nat) (f : Option γ → α → β)
      (calls : List (TCall γ α)) (c : TCall γ α),
      ∃ h, (debounceRun wait f (calls ++ [c])).1 =
        ⟨some h, [⟨h, c.time + wait, c.args⟩], h + 1⟩) ∧
    (∀ (γ α β : Type) (wait : Nat) (f : Option γ → α → β)
      (c : TCall γ α) (rest : List (TCall γ α)),
      BurstSpaced wait (c :: rest) →
      debounceComplete wait f (c :: rest) =
        [⟨((c :: rest).getLast (List.cons_ne_nil c rest)).time + wait, none,
          ((c :: rest).getLast (List.cons_ne_nil c rest)).args,
          f none ((c :: rest).getLast (List.cons_ne_nil c rest)).args⟩]) := by
  constructor
  · intro γ α β wait f calls c
    have hinv := debounceRunFrom_inv wait f calls initDebounce DebInv_init
    refine ⟨(debounceRunFrom wait f initDebounce calls).1.nextHandle, ?_⟩
    show (debounceRunFrom wait f initDebounce (calls ++ [c])).1 = _
    rw [debounceRunFrom_append_state]
    show (debounceStep wait f (debounceRunFrom wait f initDebounce calls).1 c).state = _
    exact debounceStep_state wait f hinv c
  · intro γ α β wait f c rest hb
    obtain ⟨h', hn', hre⟩ := debounceRunFrom_burst wait f rest c 0 1 hb
    have hrun : debounceRun wait f (c :: rest) =
        (⟨some h',
          [⟨h', ((c :: rest).getLast (List.cons_ne_nil c rest)).time + wait,
            ((c :: rest).getLast (List.cons_ne_nil c rest)).args⟩], hn'⟩,
          []) := by
      show debounceRunFrom wait f initDebounce (c :: rest) = _
      rw [debounceRunFrom_cons]
      have h0 : (debounceStep wait f initDebounce c).state =
          ⟨some 0, [⟨0, c.time + wait, c.args⟩], 1⟩ := rfl
      have h0' : (debounceStep wait f initDebounce c).invs = [] := rfl
      rw [h0, h0', hre]
      simp
    show (debounceRun wait f (c :: rest)).2 ++
        (flushAll f (debounceRun wait f (c :: rest)).1.queue.length
          (debounceRun wait f (c :: rest)).1).2 = _
    rw [hrun]
    simp [flushAll_single]

/-- Witness for C2 at a concrete input (the spec's end-to-end debounce
scenario): keys a, b, c typed 5 ms apart with `debounce(fn, 50)` invoke the
callback once, 50 ms after the last key, with that key's argument. -/
theorem debounce_burst_witness :
    debounceComplete 50 (fun _ (a : String) => a)
      [⟨0, (), "a"⟩, ⟨5, (), "b"⟩, ⟨10, (), "c"⟩] = [⟨60, none, "c", "c"⟩] := by
  have h := debounce_burst.2 Unit String String 50 (fun _ a => a) ⟨0, (), "a"⟩
    [⟨5, (), "b"⟩, ⟨10, (), "c"⟩] (by constructor <;> simp [BurstSpaced])
  simpa using h

/-- C7: at most one pending timer exists per debounced wrapper at any point
of any call sequence, and the throttle lock always self-clears: once its
deadline has passed, the next call finds the wrapper unlocked and invokes the
callback. -/
theorem debounce_single_pending :
    (∀ (γ α β : Type) (wait : Nat) (f : Option γ → α → β)
      (calls : List (TCall γ α)),
      (debounceRun wait f calls).1.queue.length ≤ 1) ∧
    (∀ (γ α β : Type) (limit : Nat) (f : Option γ → α → β) (d : Nat)
      (c : TCall γ α), d ≤ c.time →
      (throttleStep limit f (some d) c).inv = some (mkInvocation f c)) := by
  constructor
  · intro γ α β wait f calls
    exact (debounceRunFrom_inv wait f calls initDebounce DebInv_init).2
  · intro γ α β limit f d c h
    rw [throttleStep_expired limit f c h]

/-- Witness for C7 at a concrete input: a call at time 60 against a lock that
expired at 50 invokes the callback. -/
theorem debounce_single_pending_witness :
    (throttleStep 100 (fun _ (a : Nat) => a) (some 50) ⟨60, 1, 2⟩).inv =
      some (mkInvocation (fun _ (a : Nat) => a) ⟨60, 1, 2⟩) :=
  debounce_single_pending.2 Nat Nat Nat 100 (fun _ a => a) 50 ⟨60, 1, 2⟩
    (by decide)

/-- C5 counterexample: `debounce` does not pass the caller's receiver
through.  With callback `fun o _ => o` (which returns the receiver it was
invoked with) and a single call carrying receiver `7`, the sole invocation
runs with the undefined receiver (`none`), not `some 7`: `executedFunction`
calls `func(...args)` as a plain call. -/
theorem wrapper_passthrough_counterexample :
    debounceComplete 5 (fun (o : Option Nat) (_ : Nat) => o) [⟨0, 7, 42⟩] =
      [⟨5, none, 42, none⟩] ∧ (none : Option Nat) ≠ some 7 := by
  constructor
  · decide
  · decide

/-- C5 (amended): the throttled wrapper invokes the callback with exactly the
arguments and receiver of the triggering call; the debounced wrapper invokes
the callback with exactly the arguments of the scheduling call, `wait` ms
after it, but with the undefined/global receiver instead of the caller's
receiver (`func(...args)` is a plain call). -/
theorem wrapper_passthrough_amended :
    (∀ (γ α β : Type) (limit : Nat) (f : Option γ → α → β)
      (calls : List (TCall γ α)),
      ∀ i ∈ (throttleRun limit f calls).2, ∃ c ∈ calls, i = mkInvocation f c) ∧
    (∀ (γ α β : Type) (wait : Nat) (f : Option γ → α → β)
      (calls : List (TCall γ α)),
      ∀ i ∈ debounceComplete wait f calls,
        i.thisCtx = none ∧ ∃ c ∈ calls,
          i.time = c.time + wait ∧ i.args = c.args ∧
            i.result = f none c.args) := by
  constructor
  · intro γ α β limit f calls i hi
    exact throttleRunFrom_passthrough limit f calls none i hi
  · intro γ α β wait f calls i hi
    set P : Nat → α → Prop :=
      fun t a => ∃ c ∈ calls, t = c.time + wait ∧ a = c.args with hP
    have hmain := debounceRunFrom_good wait f P calls initDebounce
      (fun tm hm => absurd hm (List.not_mem_nil tm))
      (fun c hc => ⟨c, hc, rfl, rfl⟩)
    have hgood : i.thisCtx = none ∧ P i.time i.args ∧
        i.result = f none i.args := by
      rcases List.mem_append.mp hi with h1 | h1
      · exact hmain.1 i h1
      · exact flushAll_good f P _ _ hmain.2 i h1
    obtain ⟨hctx, ⟨c, hc, ht, ha⟩, hres⟩ := hgood
    exact ⟨hctx, c, hc, ht, ha, by rw [hres, ha]⟩

/-- Witness for the amended C5 at a concrete input: a single throttled call
with receiver 1 and argument 2 yields exactly that call's invocation
record. -/
theorem wrapper_passthrough_amended_witness :
    ∃ c ∈ [(⟨0, 1, 2⟩ : TCall Nat Nat)],
      (⟨0, some 1, 2, 2⟩ : Invocation Nat Nat Nat) =
        mkInvocation (fun _ a => a) c :=
  wrapper_passthrough_amended.1 Nat Nat Nat 100 (fun _ a => a) [⟨0, 1, 2⟩]
    ⟨0, some 1, 2, 2⟩ (by decide)

/-- C10: neither wrapper ever propagates the callback's return value to the
wrapper's caller — the throttled wrapper's body runs `func.apply` without
returning it and `executedFunction` only schedules a timer, so each call
through either wrapper returns the undefined value. -/
theorem wrapper_returns_undefined :
    (∀ (γ α β : Type) (limit : Nat) (f : Option γ → α → β) (s : Option Nat)
      (c : TCall γ α), (throttleStep limit f s c).ret = none) ∧
    (∀ (γ α β : Type) (wait : Nat) (f : Option γ → α → β)
      (s : DebounceState α) (c : TCall γ α),
      (debounceStep wait f s c).ret = none) := by
  constructor
  · intro γ α β limit f s c
    unfold throttleStep
    rcases s with _ | d
    · rfl
    · by_cases h : d ≤ c.time <;> simp [h]
  · intro γ α β wait f s c
    rfl

end EventsDemo
